import Mathlib

/-!
Verification development for the hybrid search engine in
`services/search_engine.py` (class `SearchEngine`).

Modelling conventions (shallow embedding):
* Float scores are modelled as rationals (ℚ); the claims under study are
  about control flow, counts and exact score formulas, not float rounding.
* Embedding vectors are `List ℚ`.  The external sentence-transformer model
  (`self.model.encode`) is an external collaborator; it is modelled as a
  parameter `E : String → Option Vec` (`none` = the encoder raises).
  A batched encode call (`_encode(texts)`) is all-or-nothing, modelled by
  `encodeAll`.
* `_create_weighted_embeddings` computes the weighted sum
  `w_q * q + w_a * a` and then divides by the L2 norm.  The norm involves a
  square root, which is not expressible over ℚ, so the re-normalisation
  step (together with its zero-norm guard) is abstracted as a parameter
  `nrm : Vec → Vec`; every claim proved here is independent of the numeric
  content of the combined vectors.
* Python dicts keyed by document ordinal are association lists
  `List (Nat × ℚ)` kept in insertion order, with `dictGet`/`dictSet`
  mirroring `d.get(i, 0)` / `d[i] = v` (update in place, append if new).
* Python's `sorted(..., key=f, reverse=True)` is a stable descending sort,
  modelled by the stable insertion sort `sortByDesc`.
* FAISS `IndexFlatIP` objects are modelled by their stored vector lists
  (the only facts used are entry counts and appends); `BM25Okapi` objects
  are modelled by the tokenized corpus they were built from
  (`Option (List (List String))`, `none` mirroring a `None` field).
* File I/O (`_save_all_indexes`, reading index files) is out of scope; the
  on-disk state consumed by `initialize` is modelled by the `Store` type.
-/

set_option maxRecDepth 100000

/-- An embedding vector (the code uses 312-dim float32 arrays). -/
abbrev Vec := List ℚ

/-- A Python dict mapping document ordinals to scores, in insertion order. -/
abbrev Dict := List (Nat × ℚ)

/-- A stored document (`self.documents` entries; `add_document` stores the
keys post_id, post_number, question_text, answer_text, message_id). -/
structure Doc where
  postId : Option Nat
  postNumber : Option Nat
  questionText : String
  answerText : String
  messageId : Option Nat
deriving DecidableEq, Repr

/-- `SearchEngine._tokenize`: lower-case, replace non-word characters by
spaces, split, keep tokens of length > 1 (ASCII approximation of the
Python regex `[^\w\s]`). -/
def tokenize (s : String) : List String :=
  let cleaned := String.map (fun c => if c.isAlphanum || c = '_' then c.toLower else ' ') s
  (cleaned.split (fun c => c = ' ')).filter (fun t => 1 < t.length)

/-- Engine state: the mutable fields of `SearchEngine` that the claims
refer to.  `ready` models `self._initialized`.  The legacy alias
`self.index` always points at `self.combined_index` and is not modelled
separately. -/
structure Engine where
  questionIndex : List Vec
  answerIndex : List Vec
  combinedIndex : List Vec
  documents : List Doc
  bm25Questions : Option (List (List String))
  bm25Answers : Option (List (List String))
  bm25Combined : Option (List (List String))
  tokenizedCorpus : List (List String)
  ready : Bool
  questionWeight : ℚ
  answerWeight : ℚ
deriving DecidableEq, Repr

/-- The freshly constructed engine (`SearchEngine.__init__`): empty
structures, not initialized, weights 0.6 / 0.4.  The Python fields holding
`None` index objects are modelled by empty lists, indistinguishable in
every modelled code path. -/
def engine0 : Engine :=
  { questionIndex := [], answerIndex := [], combinedIndex := [], documents := []
    bm25Questions := none, bm25Answers := none, bm25Combined := none
    tokenizedCorpus := [], ready := false
    questionWeight := 3/5, answerWeight := 2/5 }

/-- Errors raised by the engine: the `RuntimeError` for missing
initialization, an exception escaping the embedder, and an `IndexError`
from `self.documents[idx]`. -/
inductive Err where
  | notInitialized
  | embeddingFailed
  | indexError
deriving DecidableEq, Repr

/-- One batched `self._encode(texts)` call: the encoder either embeds every
text or raises (all-or-nothing `none`). -/
def encodeAll (E : String → Option Vec) : List String → Option (List Vec)
  | [] => some []
  | t :: ts =>
    match E t, encodeAll E ts with
    | some v, some vs => some (v :: vs)
    | _, _ => none

/-- `_create_weighted_embeddings` for one row: weighted sum of the two
embeddings followed by the (abstracted) L2 re-normalisation `nrm`. -/
def createWeighted (nrm : Vec → Vec) (wq wa : ℚ) (q a : Vec) : Vec :=
  nrm (List.zipWith (fun x y => wq * x + wa * y) q a)

/-- `_build_bm25_indexes`: tokenized question corpus, answer corpus and
combined corpus; all `None`/empty when there are no documents. -/
def buildBM25 (docs : List Doc) :
    Option (List (List String)) × Option (List (List String)) ×
    Option (List (List String)) × List (List String) :=
  if docs = [] then (none, none, none, [])
  else
    let tq := docs.map (fun d => tokenize d.questionText)
    let ta := docs.map (fun d => tokenize d.answerText)
    let tc := docs.map (fun d => tokenize (d.questionText ++ " " ++ d.answerText))
    (some tq, some ta, some tc, tc)

/-- Apply `_build_bm25_indexes` to the engine's current document list. -/
def applyBM25 (st : Engine) : Engine :=
  let b := buildBM25 st.documents
  { st with bm25Questions := b.1, bm25Answers := b.2.1
            bm25Combined := b.2.2.1, tokenizedCorpus := b.2.2.2 }

/-- `_create_empty_indexes`: fresh empty vector indexes and empty document
list (BM25 fields untouched, exactly as in the code). -/
def createEmptyIndexes (st : Engine) : Engine :=
  { st with questionIndex := [], answerIndex := [], combinedIndex := [], documents := [] }

/-- The document metadata dict stored by `add_document` /
`add_documents_batch` (lines 300-306 / 342-349). -/
def storedOf (d : Doc) : Doc :=
  { postId := d.postId, postNumber := d.postNumber
    questionText := d.questionText, answerText := d.answerText
    messageId := d.messageId }

/-- `add_document`: initialization check, encode question and answer,
combine, append to the three vector indexes and the document list, rebuild
BM25, return the new document's position. -/
def addDocument (E : String → Option Vec) (nrm : Vec → Vec) (doc : Doc)
    (st : Engine) : Engine × Except Err Nat :=
  if st.ready then
    match E doc.questionText, E doc.answerText with
    | some qe, some ae =>
      let ce := createWeighted nrm st.questionWeight st.answerWeight qe ae
      let st1 := { st with
        questionIndex := st.questionIndex ++ [qe]
        answerIndex := st.answerIndex ++ [ae]
        combinedIndex := st.combinedIndex ++ [ce]
        documents := st.documents ++ [storedOf doc] }
      (applyBM25 st1, .ok (st1.documents.length - 1))
    | _, _ => (st, .error .embeddingFailed)
  else (st, .error .notInitialized)

/-- `add_documents_batch`: initialization check, early return on an empty
batch, batched encoding of all questions and answers before any index is
mutated, then append everything and rebuild BM25. -/
def addDocumentsBatch (E : String → Option Vec) (nrm : Vec → Vec)
    (docs : List Doc) (st : Engine) : Engine × Except Err Unit :=
  if st.ready then
    if docs = [] then (st, .ok ())
    else
      match encodeAll E (docs.map (fun d => d.questionText)),
            encodeAll E (docs.map (fun d => d.answerText)) with
      | some qes, some aes =>
        let ces := List.zipWith (createWeighted nrm st.questionWeight st.answerWeight) qes aes
        let st1 := { st with
          questionIndex := st.questionIndex ++ qes
          answerIndex := st.answerIndex ++ aes
          combinedIndex := st.combinedIndex ++ ces
          documents := st.documents ++ docs.map storedOf }
        (applyBM25 st1, .ok ())
      | _, _ => (st, .error .embeddingFailed)
  else (st, .error .notInitialized)

/-- `get_document_count`: returns `len(self.documents)` with no
initialization check. -/
def getDocumentCount (st : Engine) : Nat :=
  st.documents.length

/-- `clear_index`: empty indexes and document list, BM25 fields reset to
`None`; no initialization check. -/
def clearIndex (st : Engine) : Engine :=
  { createEmptyIndexes st with
    bm25Questions := none, bm25Answers := none, bm25Combined := none
    tokenizedCorpus := [] }

/-- `rebuild_index`: clear documents and vector indexes, then add the
given documents in one batch (skipped entirely when `docs` is empty, which
leaves the BM25 fields stale). -/
def rebuildIndex (E : String → Option Vec) (nrm : Vec → Vec)
    (docs : List Doc) (st : Engine) : Engine × Except Err Unit :=
  let st1 := createEmptyIndexes { st with documents := [] }
  if docs = [] then (st1, .ok ())
  else addDocumentsBatch E nrm docs st1

/-- The persisted multi-index snapshot: the three serialized vector
indexes plus the document list (`_load_multi_index` inputs). -/
structure Snapshot where
  qvecs : List Vec
  avecs : List Vec
  cvecs : List Vec
  docs : List Doc
deriving DecidableEq, Repr

/-- What `initialize` finds on disk: a multi-index snapshot, a legacy
single-index snapshot (its stored vectors are discarded by
`_build_multi_index` before any observation point, so only the document
list matters), or nothing. -/
inductive Store where
  | multi (snap : Snapshot)
  | legacy (docs : List Doc)
  | fresh
deriving DecidableEq, Repr

/-- `_build_multi_index`: create fresh empty indexes, re-encode every
document, combine, and fill the indexes.  On an empty document list it
just creates empty indexes.  The fresh indexes are installed before the
encoder runs, exactly as in the code (lines 145-158). -/
def buildMultiIndex (E : String → Option Vec) (nrm : Vec → Vec)
    (st : Engine) : Engine × Except Err Unit :=
  if st.documents = [] then (createEmptyIndexes st, .ok ())
  else
    let st1 := { st with questionIndex := [], answerIndex := [], combinedIndex := [] }
    match encodeAll E (st.documents.map (fun d => d.questionText)),
          encodeAll E (st.documents.map (fun d => d.answerText)) with
    | some qes, some aes =>
      let ces := List.zipWith (createWeighted nrm st.questionWeight st.answerWeight) qes aes
      ({ st1 with questionIndex := qes, answerIndex := aes, combinedIndex := ces }, .ok ())
    | _, _ => (st1, .error .embeddingFailed)

/-- `initialize`: no-op if already initialized; otherwise load the
multi-index snapshot as-is, or load a legacy snapshot and upgrade it, or
create empty indexes; then build the BM25 indexes and set the flag.
Note: the multi-index branch performs no consistency validation. -/
def initEngine (E : String → Option Vec) (nrm : Vec → Vec) (store : Store)
    (st : Engine) : Engine × Except Err Unit :=
  if st.ready then (st, .ok ())
  else
    match store with
    | .multi snap =>
      let st1 := { st with questionIndex := snap.qvecs, answerIndex := snap.avecs
                           combinedIndex := snap.cvecs, documents := snap.docs }
      ({ applyBM25 st1 with ready := true }, .ok ())
    | .legacy docs =>
      let st1 := { st with documents := docs }
      match buildMultiIndex E nrm st1 with
      | (st2, .ok _) => ({ applyBM25 st2 with ready := true }, .ok ())
      | (st2, .error e) => (st2, .error e)
    | .fresh =>
      let st1 := createEmptyIndexes st
      ({ applyBM25 st1 with ready := true }, .ok ())

/-- `d.get(i, 0)`: the score stored for ordinal `i`, defaulting to 0. -/
def dictGet (d : Dict) (i : Nat) : ℚ :=
  match d.find? (fun p => p.1 = i) with
  | some p => p.2
  | none => 0

/-- `d[i] = v` on a Python dict: update in place if the key exists,
append otherwise (preserving insertion order). -/
def dictSet : Dict → Nat → ℚ → Dict
  | [], i, v => [(i, v)]
  | p :: rest, i, v => if p.1 = i then (i, v) :: rest else p :: dictSet rest i v

/-- 0-based position of the first occurrence of `j` in a key list. -/
def posOf (j : Nat) : List Nat → Nat
  | [] => 0
  | i :: rest => if i = j then 0 else posOf j rest + 1

/-- Insert `x` into a descending-sorted list, after every element with a
key at least as large (so equal keys keep their original order). -/
def sortInsert (f : α → ℚ) (x : α) : List α → List α
  | [] => [x]
  | y :: ys => if f x < f y then y :: sortInsert f x ys else x :: y :: ys

/-- Stable sort in descending key order: the model of Python
`sorted(..., key=f, reverse=True)` / `list.sort(key=f, reverse=True)`. -/
def sortByDesc (f : α → ℚ) : List α → List α
  | [] => []
  | x :: xs => sortInsert f x (sortByDesc f xs)

/-- The inner loop of `_reciprocal_rank_fusion` for one already-ranked
result list: `rrf_scores[idx] = rrf_scores.get(idx, 0) + w / (k + rank + 1)`. -/
def rrfOne (k : Nat) (w : ℚ) : Dict → Nat → Dict → Dict
  | [], _, acc => acc
  | (i, _) :: rest, rank, acc =>
    rrfOne k w rest (rank + 1) (dictSet acc i (dictGet acc i + w / ((k + rank + 1 : Nat) : ℚ)))

/-- The outer loop of `_reciprocal_rank_fusion` over `zip(result_dicts,
weights)`: each result set is re-sorted by raw score descending and folded
into the accumulator. -/
def rrfFold (k : Nat) : List (Dict × ℚ) → Dict → Dict
  | [], acc => acc
  | (d, w) :: rest, acc => rrfFold k rest (rrfOne k w (sortByDesc Prod.snd d) 0 acc)

/-- `_reciprocal_rank_fusion(*result_dicts, k, weights)`; `weights = none`
models the Python default `None`, expanded to all-ones.  The Python
default `k = 60` is passed explicitly at every call site. -/
def reciprocalRankFusion (ds : List Dict) (k : Nat) (weights : Option (List ℚ)) : Dict :=
  let ws := weights.getD (List.replicate ds.length 1)
  rrfFold k (ds.zip ws) []

/-- Rank of ordinal `j` inside one result dict: its 0-based position after
the stable descending re-sort by raw score. -/
def rankOf (d : Dict) (j : Nat) : Nat :=
  posOf j ((sortByDesc Prod.snd d).map Prod.fst)

/-- `search` lines 535-541: fuse the semantic and BM25 maps with weights
0.3 / 0.7 and the default `k = 60`, or fall back to the raw semantic map
when there are no BM25 results. -/
def combinedScores (sem bm : Dict) : Dict :=
  if bm = [] then sem
  else reciprocalRankFusion [sem, bm] 60 (some [3/10, 7/10])

/-- `search` lines 543-554: keep an ordinal iff its semantic score passes
the caller threshold or its BM25 score passes the fixed 0.5 admission
threshold; record `(idx, rrf_score, display_score)` with
`display_score = max(semantic, bm25)`. -/
def filterStep (sem bm : Dict) (threshold : ℚ) : List (Nat × ℚ × ℚ) :=
  (combinedScores sem bm).filterMap (fun p =>
    if threshold ≤ dictGet sem p.1 ∨ (1 : ℚ)/2 ≤ dictGet bm p.1
    then some (p.1, p.2, max (dictGet sem p.1) (dictGet bm p.1)) else none)

/-- `search` lines 556-560 before materialisation: sort the survivors by
fused score descending (stable) and keep the first `top_k`. -/
def searchRanked (sem bm : Dict) (threshold : ℚ) (top_k : Nat) : List (Nat × ℚ × ℚ) :=
  (sortByDesc (fun t => t.2.1) (filterStep sem bm threshold)).take top_k

/-- `[(self.documents[idx], display) for idx, _, display in results]`:
materialise ordinals back to documents, raising `IndexError` on an
out-of-range ordinal. -/
def materialize (docs : List Doc) : List (Nat × ℚ × ℚ) → Except Err (List (Doc × ℚ))
  | [] => .ok []
  | t :: rest =>
    match docs[t.1]? with
    | some d =>
      match materialize docs rest with
      | .ok res => .ok ((d, t.2.2) :: res)
      | .error e => .error e
    | none => .error .indexError

/-- `search`: initialization check, empty-index early return, then the
fuse / filter / sort / truncate / materialise pipeline.  The per-ordinal
max-merged semantic map (`all_semantic`, from FAISS searches over the
query variants) and normalized BM25 map (`bm25_results`) are produced by
the external embedder/FAISS/BM25 collaborators upstream of the modelled
steps, so they enter as parameters `sem` and `bm`. -/
def search (sem bm : Dict) (top_k : Nat) (threshold : ℚ) (st : Engine) :
    Engine × Except Err (List (Doc × ℚ)) :=
  if st.ready then
    if st.combinedIndex.length = 0 then (st, .ok [])
    else (st, materialize st.documents (searchRanked sem bm threshold top_k))
  else (st, .error .notInitialized)

/-- `search_questions_only`: single-field pipeline with unweighted two-way
RRF (default weights, `k = 60`) and the same 0.5 lexical admission rule. -/
def searchQuestionsOnly (semQ bmQ : Dict) (top_k : Nat) (threshold : ℚ)
    (st : Engine) : Engine × Except Err (List (Doc × ℚ)) :=
  if st.ready then
    let combined := reciprocalRankFusion [semQ, bmQ] 60 none
    let filtered := combined.filter (fun p =>
      decide (threshold ≤ dictGet semQ p.1) || decide ((1 : ℚ)/2 ≤ dictGet bmQ p.1))
    let ranked := (sortByDesc Prod.snd filtered).take top_k
    (st, materialize st.documents
      (ranked.map (fun p => (p.1, p.2, max (dictGet semQ p.1) (dictGet bmQ p.1)))))
  else (st, .error .notInitialized)

/-- `search_answers_only`: same single-field pipeline over the answer
indexes. -/
def searchAnswersOnly (semA bmA : Dict) (top_k : Nat) (threshold : ℚ)
    (st : Engine) : Engine × Except Err (List (Doc × ℚ)) :=
  if st.ready then
    let combined := reciprocalRankFusion [semA, bmA] 60 none
    let filtered := combined.filter (fun p =>
      decide (threshold ≤ dictGet semA p.1) || decide ((1 : ℚ)/2 ≤ dictGet bmA p.1))
    let ranked := (sortByDesc Prod.snd filtered).take top_k
    (st, materialize st.documents
      (ranked.map (fun p => (p.1, p.2, max (dictGet semA p.1) (dictGet bmA p.1)))))
  else (st, .error .notInitialized)

/-- The engine operations whose preservation of the index invariant is
claimed. -/
inductive Op where
  | add (doc : Doc)
  | addBatch (docs : List Doc)
  | clear
  | rebuild (docs : List Doc)
  | engineInit (store : Store)
deriving Repr

/-- Run one engine operation, discarding `add_document`'s return value. -/
def runOp (E : String → Option Vec) (nrm : Vec → Vec) :
    Op → Engine → Engine × Except Err Unit
  | .add doc, st =>
    let r := addDocument E nrm doc st
    (r.1, r.2.map (fun _ => ()))
  | .addBatch docs, st => addDocumentsBatch E nrm docs st
  | .clear, st => (clearIndex st, .ok ())
  | .rebuild docs, st => rebuildIndex E nrm docs st
  | .engineInit s, st => initEngine E nrm s st

/-- The cross-index consistency invariant: every vector index holds
exactly one entry per document, and (when any documents exist) every BM25
index is the tokenization of the document list in ordinal order, so each
document's position is its position in every index. -/
def consistentInv (st : Engine) : Prop :=
  st.questionIndex.length = st.documents.length ∧
  st.answerIndex.length = st.documents.length ∧
  st.combinedIndex.length = st.documents.length ∧
  (st.documents ≠ [] →
    st.bm25Questions = some (st.documents.map (fun d => tokenize d.questionText)) ∧
    st.bm25Answers = some (st.documents.map (fun d => tokenize d.answerText)) ∧
    st.bm25Combined = some (st.documents.map (fun d => tokenize (d.questionText ++ " " ++ d.answerText))))

/-- Precondition under which an operation is claimed to (re-)establish the
invariant: ingestion starts from a consistent state; `initialize` needs a
count-consistent snapshot in the multi-index branch (it performs no
validation itself) and, when already initialized (no-op), a consistent
current state. -/
def preOp (op : Op) (st : Engine) : Prop :=
  match op with
  | .add _ => consistentInv st
  | .addBatch _ => consistentInv st
  | .clear => True
  | .rebuild _ => True
  | .engineInit store =>
    (st.ready = true → consistentInv st) ∧
    (match store with
     | .multi snap =>
       snap.qvecs.length = snap.docs.length ∧
       snap.avecs.length = snap.docs.length ∧
       snap.cvecs.length = snap.docs.length
     | _ => True)

theorem dictGet_dictSet_self (d : Dict) (i : Nat) (v : ℚ) :
    dictGet (dictSet d i v) i = v := by
  induction d with
  | nil => simp [dictSet, dictGet, List.find?]
  | cons p rest ih =>
    by_cases h : p.1 = i
    · simp [dictSet, h, dictGet, List.find?]
    · simp only [dictSet, if_neg h]
      simp only [dictGet, List.find?] at ih ⊢
      rw [show (decide (p.1 = i)) = false by simp [h]]
      exact ih

theorem dictGet_dictSet_ne (d : Dict) (i j : Nat) (v : ℚ) (h : j ≠ i) :
    dictGet (dictSet d i v) j = dictGet d j := by
  induction d with
  | nil => simp [dictSet, dictGet, List.find?, Ne.symm h]
  | cons p rest ih =>
    by_cases hp : p.1 = i
    · simp [dictSet, hp, dictGet, List.find?, Ne.symm h, hp ▸ (Ne.symm h)]
    · simp only [dictSet, if_neg hp]
      simp only [dictGet, List.find?] at ih ⊢
      cases hd : decide (p.1 = j) with
      | true => rfl
      | false => exact ih

theorem mem_keys_dictSet (d : Dict) (i j : Nat) (v : ℚ) :
    j ∈ (dictSet d i v).map Prod.fst ↔ j = i ∨ j ∈ d.map Prod.fst := by
  induction d with
  | nil => simp [dictSet]
  | cons p rest ih =>
    by_cases hp : p.1 = i
    · subst hp
      simp [dictSet]
    · simp only [dictSet, if_neg hp, List.map_cons, List.mem_cons, ih]
      tauto

theorem sortInsert_perm (f : α → ℚ) (x : α) (l : List α) :
    List.Perm (sortInsert f x l) (x :: l) := by
  induction l with
  | nil => exact List.Perm.refl _
  | cons y ys ih =>
    by_cases h : f x < f y
    · simp only [sortInsert, if_pos h]
      exact ((ih.cons y).trans (List.Perm.swap x y ys))
    · simp only [sortInsert, if_neg h]
      exact List.Perm.refl _

theorem sortByDesc_perm (f : α → ℚ) (l : List α) :
    List.Perm (sortByDesc f l) l := by
  induction l with
  | nil => exact List.Perm.refl _
  | cons x xs ih =>
    exact (sortInsert_perm f x (sortByDesc f xs)).trans (ih.cons x)

theorem mem_sortByDesc (f : α → ℚ) (l : List α) (a : α) :
    a ∈ sortByDesc f l ↔ a ∈ l :=
  (sortByDesc_perm f l).mem_iff

theorem mem_map_sortByDesc (f : α → ℚ) (g : α → β) (l : List α) (b : β) :
    b ∈ (sortByDesc f l).map g ↔ b ∈ l.map g :=
  ((sortByDesc_perm f l).map g).mem_iff

theorem nodup_map_sortByDesc (f : α → ℚ) (g : α → β) (l : List α)
    (h : (l.map g).Nodup) : ((sortByDesc f l).map g).Nodup :=
  (((sortByDesc_perm f l).map g).nodup_iff).mpr h

theorem sortInsert_pairwise (f : α → ℚ) (x : α) (l : List α)
    (h : l.Pairwise (fun a b => f b ≤ f a)) :
    (sortInsert f x l).Pairwise (fun a b => f b ≤ f a) := by
  induction l with
  | nil => simp [sortInsert]
  | cons y ys ih =>
    rcases List.pairwise_cons.mp h with ⟨hy, hys⟩
    by_cases hxy : f x < f y
    · simp only [sortInsert, if_pos hxy]
      refine List.Pairwise.cons ?_ (ih hys)
      intro a ha
      rcases List.mem_cons.mp ((sortInsert_perm f x ys).mem_iff.mp ha) with ha | ha
      · subst ha; exact le_of_lt hxy
      · exact hy a ha
    · simp only [sortInsert, if_neg hxy]
      refine List.Pairwise.cons ?_ (List.pairwise_cons.mpr (And.intro hy hys))
      intro a ha
      rcases List.mem_cons.mp ha with ha | ha
      · subst ha; exact le_of_not_lt hxy
      · exact le_trans (hy a ha) (le_of_not_lt hxy)

theorem sortByDesc_pairwise (f : α → ℚ) (l : List α) :
    (sortByDesc f l).Pairwise (fun a b => f b ≤ f a) := by
  induction l with
  | nil => simp [sortByDesc]
  | cons x xs ih => exact sortInsert_pairwise f x _ ih

theorem dictGet_nil (j : Nat) : dictGet [] j = 0 := rfl

theorem rrfOne_get (k : Nat) (w : ℚ) (l : Dict) (r0 : Nat) (acc : Dict) (j : Nat)
    (hnd : (l.map Prod.fst).Nodup) :
    dictGet (rrfOne k w l r0 acc) j =
      dictGet acc j +
        (if j ∈ l.map Prod.fst
         then w / ((k + (r0 + posOf j (l.map Prod.fst)) + 1 : Nat) : ℚ)
         else 0) := by
  induction l generalizing r0 acc with
  | nil => simp [rrfOne]
  | cons p rest ih =>
    obtain ⟨i, s⟩ := p
    simp only [List.map_cons, List.nodup_cons] at hnd
    obtain ⟨hi, hrest⟩ := hnd
    simp only [rrfOne]
    rw [ih _ _ hrest]
    by_cases hj : j = i
    · subst hj
      rw [dictGet_dictSet_self]
      simp [posOf, hi]
    · rw [dictGet_dictSet_ne _ _ _ _ hj]
      simp only [List.map_cons, List.mem_cons, posOf]
      rw [if_neg (fun h => hj (h.symm ▸ rfl) : ¬ i = j)]
      by_cases hjr : j ∈ rest.map Prod.fst
      · rw [if_pos hjr, if_pos (Or.inr hjr)]
        have : k + (r0 + 1 + posOf j (rest.map Prod.fst)) + 1 =
            k + (r0 + (posOf j (rest.map Prod.fst) + 1)) + 1 := by omega
        rw [this]
      · rw [if_neg hjr, if_neg (fun h => h.elim (fun h' => hj h') hjr)]

theorem rrfOne_mem (k : Nat) (w : ℚ) (l : Dict) (r0 : Nat) (acc : Dict) (j : Nat) :
    j ∈ (rrfOne k w l r0 acc).map Prod.fst ↔
      j ∈ acc.map Prod.fst ∨ j ∈ l.map Prod.fst := by
  induction l generalizing r0 acc with
  | nil => simp [rrfOne]
  | cons p rest ih =>
    obtain ⟨i, s⟩ := p
    simp only [rrfOne]
    rw [ih]
    rw [mem_keys_dictSet]
    simp only [List.map_cons, List.mem_cons]
    tauto

theorem rrfFold_get (k : Nat) (l : List (Dict × ℚ)) (acc : Dict) (j : Nat)
    (h : ∀ p ∈ l, ((p.1 : Dict).map Prod.fst).Nodup) :
    dictGet (rrfFold k l acc) j =
      dictGet acc j +
        (l.map (fun p =>
          if j ∈ (p.1 : Dict).map Prod.fst
          then p.2 / ((k + rankOf p.1 j + 1 : Nat) : ℚ)
          else 0)).sum := by
  induction l generalizing acc with
  | nil => simp [rrfFold]
  | cons p rest ih =>
    obtain ⟨d, w⟩ := p
    have hd : ((d : Dict).map Prod.fst).Nodup := h (d, w) (List.mem_cons_self _ _)
    have hsorted : (((sortByDesc Prod.snd d)).map Prod.fst).Nodup :=
      nodup_map_sortByDesc _ _ _ hd
    simp only [rrfFold]
    rw [ih _ (fun q hq => h q (List.mem_cons_of_mem _ hq))]
    rw [rrfOne_get _ _ _ _ _ _ hsorted]
    simp only [List.map_cons, List.sum_cons, rankOf, Nat.zero_add,
      mem_map_sortByDesc]
    ring

theorem rrfFold_mem (k : Nat) (l : List (Dict × ℚ)) (acc : Dict) (j : Nat) :
    j ∈ (rrfFold k l acc).map Prod.fst ↔
      j ∈ acc.map Prod.fst ∨ ∃ p ∈ l, j ∈ (p.1 : Dict).map Prod.fst := by
  induction l generalizing acc with
  | nil => simp [rrfFold]
  | cons p rest ih =>
    obtain ⟨d, w⟩ := p
    simp only [rrfFold]
    rw [ih]
    rw [rrfOne_mem]
    rw [mem_map_sortByDesc]
    simp only [List.mem_cons]
    constructor
    · rintro ((ha | hd) | ⟨q, hq, hjq⟩)
      · exact Or.inl ha
      · exact Or.inr ⟨(d, w), Or.inl rfl, hd⟩
      · exact Or.inr ⟨q, Or.inr hq, hjq⟩
    · rintro (ha | ⟨q, (rfl | hq), hjq⟩)
      · exact Or.inl (Or.inl ha)
      · exact Or.inl (Or.inr hjq)
      · exact Or.inr ⟨q, hq, hjq⟩

theorem mem_combinedScores (sem bm : Dict) (j : Nat) :
    j ∈ (combinedScores sem bm).map Prod.fst ↔
      j ∈ sem.map Prod.fst ∨ j ∈ bm.map Prod.fst := by
  unfold combinedScores
  by_cases h : bm = []
  · subst h
    simp
  · rw [if_neg h]
    unfold reciprocalRankFusion
    rw [rrfFold_mem]
    simp only [Option.getD_some, List.zip_cons_cons, List.zip_nil_right]
    constructor
    · rintro (hnil | ⟨q, hq, hjq⟩)
      · simp at hnil
      · rcases List.mem_cons.mp hq with rfl | hq2
        · exact Or.inl hjq
        · rcases List.mem_cons.mp hq2 with rfl | hq3
          · exact Or.inr hjq
          · cases hq3
    · rintro (hj | hj)
      · exact Or.inr ⟨(sem, 3/10), List.mem_cons_self _ _, hj⟩
      · exact Or.inr ⟨(bm, 7/10), List.mem_cons_of_mem _ (List.mem_cons_self _ _), hj⟩

theorem mem_filterStep (sem bm : Dict) (θ : ℚ) (j : Nat) :
    j ∈ (filterStep sem bm θ).map (fun t => t.1) ↔
      (j ∈ (combinedScores sem bm).map Prod.fst ∧
        (θ ≤ dictGet sem j ∨ (1 : ℚ)/2 ≤ dictGet bm j)) := by
  unfold filterStep
  constructor
  · intro hj
    obtain ⟨t, ht, rfl⟩ := List.mem_map.mp hj
    obtain ⟨p, hp, hpt⟩ := List.mem_filterMap.mp ht
    by_cases hc : θ ≤ dictGet sem p.1 ∨ (1 : ℚ)/2 ≤ dictGet bm p.1
    · rw [if_pos hc] at hpt
      obtain rfl := Option.some.inj hpt
      exact ⟨List.mem_map.mpr ⟨p, hp, rfl⟩, hc⟩
    · rw [if_neg hc] at hpt
      cases hpt
  · rintro ⟨hj, hc⟩
    obtain ⟨p, hp, rfl⟩ := List.mem_map.mp hj
    refine List.mem_map.mpr
      ⟨(p.1, p.2, max (dictGet sem p.1) (dictGet bm p.1)), ?_, rfl⟩
    exact List.mem_filterMap.mpr ⟨p, hp, by rw [if_pos hc]⟩

theorem filterStep_display (sem bm : Dict) (θ : ℚ) :
    ∀ t ∈ filterStep sem bm θ,
      t.2.2 = max (dictGet sem t.1) (dictGet bm t.1) := by
  intro t ht
  obtain ⟨p, hp, hpt⟩ := List.mem_filterMap.mp ht
  by_cases hc : θ ≤ dictGet sem p.1 ∨ (1 : ℚ)/2 ≤ dictGet bm p.1
  · rw [if_pos hc] at hpt
    obtain rfl := Option.some.inj hpt
    rfl
  · rw [if_neg hc] at hpt
    cases hpt

theorem materialize_ok (docs : List Doc) (L : List (Nat × ℚ × ℚ))
    (res : List (Doc × ℚ)) (h : materialize docs L = .ok res) :
    res.length = L.length ∧ res.map Prod.snd = L.map (fun t => t.2.2) := by
  induction L generalizing res with
  | nil =>
    simp only [materialize, Except.ok.injEq] at h
    subst h
    simp
  | cons t rest ih =>
    simp only [materialize] at h
    cases hd : docs[t.1]? with
    | none =>
      rw [hd] at h
      cases h
    | some d =>
      rw [hd] at h
      cases hm : materialize docs rest with
      | ok res' =>
        rw [hm] at h
        simp only [Except.ok.injEq] at h
        subst h
        have := ih res' hm
        simp [this.1, this.2]
      | error e =>
        rw [hm] at h
        cases h

theorem searchRanked_pairwise (sem bm : Dict) (θ : ℚ) (k : Nat) :
    (searchRanked sem bm θ k).Pairwise (fun a b => b.2.1 ≤ a.2.1) := by
  unfold searchRanked
  exact List.Pairwise.sublist (List.take_sublist _ _)
    (sortByDesc_pairwise (fun t : Nat × ℚ × ℚ => t.2.1) _)

theorem mem_searchRanked (sem bm : Dict) (θ : ℚ) (k : Nat) (t : Nat × ℚ × ℚ)
    (h : t ∈ searchRanked sem bm θ k) : t ∈ filterStep sem bm θ := by
  unfold searchRanked at h
  exact (mem_sortByDesc _ _ _).mp ((List.take_sublist _ _).subset h)

/-- C1: in `search`, an ordinal that reaches the filtering step (i.e. one
retrieved by at least one of the two sources, hence present in the fused
score map) survives it if and only if its max-merged semantic score is at
least the caller-supplied threshold, or its max-merged normalized BM25
score is at least the fixed constant 0.5.  In particular an ordinal with
BM25 score ≥ 0.5 (necessarily present in the BM25 map, since 0.5 > 0)
survives even when its semantic score is below the threshold. -/
theorem claim_C1_filter_rule (sem bm : Dict) (threshold : ℚ) (j : Nat)
    (hj : j ∈ sem.map Prod.fst ∨ j ∈ bm.map Prod.fst) :
    j ∈ (filterStep sem bm threshold).map (fun t => t.1) ↔
      (threshold ≤ dictGet sem j ∨ (1 : ℚ)/2 ≤ dictGet bm j) := by
  rw [mem_filterStep]
  rw [mem_combinedScores]
  exact and_iff_right hj

/-- C1 witness: ordinal 1 has semantic score 0 (below the threshold 0.5)
but BM25 score 0.6 ≥ 0.5, and it survives the filter. -/
theorem claim_C1_witness :
    (((1 : Nat) ∈ ([(0, (7 : ℚ)/10)] : Dict).map Prod.fst ∨
       (1 : Nat) ∈ ([(1, (3 : ℚ)/5)] : Dict).map Prod.fst) ∧
     ((1 : Nat) ∈ (filterStep [(0, (7 : ℚ)/10)] [(1, (3 : ℚ)/5)] (1/2)).map (fun t => t.1) ↔
       ((1 : ℚ)/2 ≤ dictGet [(0, (7 : ℚ)/10)] 1 ∨ (1 : ℚ)/2 ≤ dictGet [(1, (3 : ℚ)/5)] 1))) ∧
    (1 : Nat) ∈ (filterStep [(0, (7 : ℚ)/10)] [(1, (3 : ℚ)/5)] (1/2)).map (fun t => t.1) ∧
    dictGet [(0, (7 : ℚ)/10)] 1 < 1/2 :=
  ⟨⟨by decide,
    claim_C1_filter_rule [(0, (7 : ℚ)/10)] [(1, (3 : ℚ)/5)] (1/2) 1 (by decide)⟩,
   by norm_num [filterStep, combinedScores, reciprocalRankFusion, rrfFold, rrfOne,
     sortByDesc, sortInsert, dictGet, dictSet, List.find?],
   by norm_num [dictGet, List.find?]⟩

/-- C2: `_reciprocal_rank_fusion` assigns each ordinal the sum, over
exactly those input result dicts that contain it, of
`weight_i / (k + rank_i + 1)` (the Python default for `k` is 60), where
`rank_i` is the ordinal's 0-based position in dict `i` re-sorted by raw
score descending; dicts not containing the ordinal contribute 0 (the `if`
in the sum below). -/
theorem claim_C2_rrf_formula (ds : List Dict) (ws : List ℚ) (k : Nat) (j : Nat)
    (_h0 : ws.length = ds.length)
    (hnd : ∀ d ∈ ds, (d.map Prod.fst).Nodup) :
    dictGet (reciprocalRankFusion ds k (some ws)) j =
      ((ds.zip ws).map (fun p =>
        if j ∈ (p.1 : Dict).map Prod.fst
        then p.2 / ((k + rankOf p.1 j + 1 : Nat) : ℚ)
        else 0)).sum := by
  unfold reciprocalRankFusion
  simp only [Option.getD_some]
  rw [rrfFold_get]
  · rw [dictGet_nil]
    ring
  · rintro ⟨d, w⟩ hp
    exact hnd d (List.of_mem_zip hp).1

/-- C2 witness: two concrete result dicts with weights 1/2 and 1; ordinal
1 ranks second in the first dict and first in the second, so its fused
score is (1/2)/62 + 1/61 = 1/124 + 1/61. -/
theorem claim_C2_witness :
    (([(1 : ℚ)/2, 1] : List ℚ).length =
        ([[(0, (3 : ℚ)/2), (1, 1/2)], [(1, 2), (2, 1)]] : List Dict).length ∧
     (∀ d ∈ ([[(0, (3 : ℚ)/2), (1, 1/2)], [(1, 2), (2, 1)]] : List Dict),
        (d.map Prod.fst).Nodup)) ∧
    dictGet (reciprocalRankFusion
        [[(0, (3 : ℚ)/2), (1, 1/2)], [(1, 2), (2, 1)]] 60 (some [1/2, 1])) 1 =
      ((([[(0, (3 : ℚ)/2), (1, 1/2)], [(1, 2), (2, 1)]] : List Dict).zip
          [(1 : ℚ)/2, 1]).map (fun p =>
        if (1 : Nat) ∈ (p.1 : Dict).map Prod.fst
        then p.2 / ((60 + rankOf p.1 1 + 1 : Nat) : ℚ)
        else 0)).sum ∧
    dictGet (reciprocalRankFusion
        [[(0, (3 : ℚ)/2), (1, 1/2)], [(1, 2), (2, 1)]] 60 (some [1/2, 1])) 1 =
      1/124 + 1/61 :=
  ⟨⟨by decide, by decide⟩,
   claim_C2_rrf_formula [[(0, (3 : ℚ)/2), (1, 1/2)], [(1, 2), (2, 1)]]
     [1/2, 1] 60 1 (by decide) (by decide),
   by norm_num [reciprocalRankFusion, rrfFold, rrfOne,
     sortByDesc, sortInsert, dictGet, dictSet, List.find?]⟩

/-- A concrete embedder and normalizer for closed instances. -/
def embedOne : String → Option Vec := fun _ => some [1]

/-- Identity stands in for the L2 re-normalisation in closed instances. -/
def nrmId : Vec → Vec := fun v => v

/-- A mismatched multi-index snapshot: two entries in every vector index
but only one stored document. -/
def badSnap : Snapshot :=
  { qvecs := [[1], [0]], avecs := [[1], [0]], cvecs := [[1], [0]]
    docs := [{ postId := some 1, postNumber := some 1
               questionText := "ab", answerText := "cd", messageId := some 5 }] }

/-- C3 as stated is false: `initialize` performs no entry-count validation
at all.  Loading the mismatched snapshot `badSnap` (2 vector entries, 1
document) succeeds and the engine serves the mismatched data instead of
falling back to an empty engine. -/
theorem claim_C3_counterexample :
    (initEngine embedOne nrmId (Store.multi badSnap) engine0).2 = .ok () ∧
    (initEngine embedOne nrmId (Store.multi badSnap) engine0).1.ready = true ∧
    (initEngine embedOne nrmId (Store.multi badSnap) engine0).1.questionIndex.length = 2 ∧
    (initEngine embedOne nrmId (Store.multi badSnap) engine0).1.documents.length = 1 :=
  ⟨rfl, rfl, rfl, rfl⟩

/-- C3 amended: `initialize` loads a persisted multi-index snapshot
without any consistency validation; whatever vector indexes and document
list the snapshot contains are installed as-is (followed by a BM25 rebuild
from the loaded documents), and the engine reports success — a
count-mismatched snapshot is served, not rejected. -/
theorem claim_C3_amended (E : String → Option Vec) (nrm : Vec → Vec)
    (snap : Snapshot) :
    (initEngine E nrm (Store.multi snap) engine0).2 = .ok () ∧
    (initEngine E nrm (Store.multi snap) engine0).1.questionIndex = snap.qvecs ∧
    (initEngine E nrm (Store.multi snap) engine0).1.answerIndex = snap.avecs ∧
    (initEngine E nrm (Store.multi snap) engine0).1.combinedIndex = snap.cvecs ∧
    (initEngine E nrm (Store.multi snap) engine0).1.documents = snap.docs ∧
    (initEngine E nrm (Store.multi snap) engine0).1.ready = true := by
  refine ⟨rfl, ?_, ?_, ?_, ?_, rfl⟩ <;> rfl

/-- Documents with distinct external ids, for concrete search results. -/
def docN (n : Nat) : Doc :=
  { postId := some n, postNumber := some n
    questionText := "ab", answerText := "cd", messageId := some n }

/-- An initialized engine holding eight documents. -/
def engineB : Engine :=
  { engine0 with
    ready := true
    questionIndex := List.replicate 8 [1]
    answerIndex := List.replicate 8 [1]
    combinedIndex := List.replicate 8 [1]
    documents := (List.range 8).map docN }

/-- C4 is false in its tie-break part: ordinals 7 and 3 have equal fused
scores, yet `search` returns ordinal 7 first.  The configuration is
reachable: with an empty BM25 result set (query with no lexical overlap)
the fused map is the raw max-merged semantic map; ordinal 7 can enter it
first via the question-field search with score 3/5, and ordinal 3 later
via the answer-field search with raw score (10/9)·(3/5) scaled by the 0.9
answer-field weight to the same 3/5 — so ties keep dict insertion order,
which is retrieval order, not ascending ordinal order. -/
theorem claim_C4_counterexample :
    dictGet (combinedScores [(7, (3 : ℚ)/5), (3, 3/5)] []) 7 =
      dictGet (combinedScores [(7, (3 : ℚ)/5), (3, 3/5)] []) 3 ∧
    (search [(7, (3 : ℚ)/5), (3, 3/5)] [] 5 (1/2) engineB).2 =
      .ok [(docN 7, 3/5), (docN 3, 3/5)] :=
  ⟨by norm_num [combinedScores, dictGet, List.find?],
   by with_unfolding_all rfl⟩

/-- C4 amended: `search` returns at most `top_k` results, ordered by fused
RRF score descending, and each returned document is paired with
`display_score = max(semantic_score, lexical_score)`, not the fused score;
however, ties in the fused score are broken by the insertion order of the
fused score map (retrieval rank order, via the stable sort), not by lower
ordinal. -/
theorem claim_C4_amended (sem bm : Dict) (threshold : ℚ) (top_k : Nat)
    (st : Engine) (res : List (Doc × ℚ))
    (hready : st.ready = true) (hne : st.combinedIndex ≠ [])
    (h : (search sem bm top_k threshold st).2 = .ok res) :
    res.length ≤ top_k ∧
    (searchRanked sem bm threshold top_k).Pairwise (fun a b => b.2.1 ≤ a.2.1) ∧
    res.map Prod.snd = (searchRanked sem bm threshold top_k).map
      (fun t => max (dictGet sem t.1) (dictGet bm t.1)) := by
  unfold search at h
  rw [if_pos hready] at h
  rw [if_neg (fun hl => hne (List.length_eq_zero.mp hl))] at h
  obtain ⟨hlen, hmap⟩ := materialize_ok _ _ _ h
  refine ⟨?_, searchRanked_pairwise sem bm threshold top_k, ?_⟩
  · rw [hlen]
    unfold searchRanked
    exact List.length_take_le _ _
  · rw [hmap]
    exact List.map_congr_left (fun t ht =>
      filterStep_display sem bm threshold t (mem_searchRanked sem bm threshold top_k t ht))

/-- C4 witness: on an engine with one document, semantic score 1 for
ordinal 0 and no BM25 results, `search` returns that document with display
score 1 and all three amended properties hold. -/
theorem claim_C4_witness :
    (engineB.ready = true ∧ engineB.combinedIndex ≠ [] ∧
      (search [(0, (1 : ℚ))] [] 5 (1/2) engineB).2 = .ok [(docN 0, 1)]) ∧
    ([(docN 0, (1 : ℚ))] : List (Doc × ℚ)).length ≤ 5 ∧
    (searchRanked [(0, (1 : ℚ))] [] (1/2) 5).Pairwise (fun a b => b.2.1 ≤ a.2.1) ∧
    ([(docN 0, (1 : ℚ))] : List (Doc × ℚ)).map Prod.snd =
      (searchRanked [(0, (1 : ℚ))] [] (1/2) 5).map
        (fun t => max (dictGet [(0, (1 : ℚ))] t.1) (dictGet [] t.1)) :=
  ⟨⟨rfl, by decide, by with_unfolding_all rfl⟩,
   claim_C4_amended [(0, (1 : ℚ))] [] (1/2) 5 engineB [(docN 0, 1)] rfl (by decide)
     (by with_unfolding_all rfl)⟩

theorem encodeAll_length (E : String → Option Vec) (l : List String)
    (ys : List Vec) (h : encodeAll E l = some ys) : ys.length = l.length := by
  induction l generalizing ys with
  | nil =>
    simp only [encodeAll, Option.some.injEq] at h
    subst h
    rfl
  | cons t ts ih =>
    simp only [encodeAll] at h
    cases he : E t with
    | none => rw [he] at h; cases h
    | some v =>
      rw [he] at h
      cases hr : encodeAll E ts with
      | none => rw [hr] at h; cases h
      | some vs =>
        rw [hr] at h
        simp only [Option.some.injEq] at h
        subst h
        simp [ih vs hr]

theorem documents_applyBM25 (st : Engine) :
    (applyBM25 st).documents = st.documents := rfl

/-- C6: on an initialized engine, a successful `add_documents_batch(docs)`
increases `get_document_count()` by exactly `len(docs)`, and
`add_documents_batch([])` is a complete no-op returning the engine state
unchanged (hence every vector and BM25 index size is unchanged). -/
theorem claim_C6_batch_count (E : String → Option Vec) (nrm : Vec → Vec)
    (docs : List Doc) (st : Engine) (hready : st.ready = true) :
    ((addDocumentsBatch E nrm docs st).2 = .ok () →
      getDocumentCount (addDocumentsBatch E nrm docs st).1 =
        getDocumentCount st + docs.length) ∧
    addDocumentsBatch E nrm [] st = (st, .ok ()) := by
  constructor
  · intro h
    unfold addDocumentsBatch at h ⊢
    rw [if_pos hready] at h ⊢
    by_cases hd : docs = []
    · subst hd
      simp
    · rw [if_neg hd] at h ⊢
      cases hq : encodeAll E (docs.map (fun d => d.questionText)) with
      | none => rw [hq] at h; simp at h
      | some qes =>
        rw [hq] at h
        cases ha : encodeAll E (docs.map (fun d => d.answerText)) with
        | none => rw [ha] at h; simp at h
        | some aes =>
          simp [getDocumentCount, documents_applyBM25]
  · unfold addDocumentsBatch
    rw [if_pos hready]
    rfl

/-- C6 witness: a batch of one document on an initialized engine raises
the count from 8 to 9, and the empty batch is a no-op. -/
theorem claim_C6_witness :
    engineB.ready = true ∧
    ((addDocumentsBatch embedOne nrmId [docN 9] engineB).2 = .ok () →
      getDocumentCount (addDocumentsBatch embedOne nrmId [docN 9] engineB).1 =
        getDocumentCount engineB + 1) ∧
    addDocumentsBatch embedOne nrmId [] engineB = (engineB, .ok ()) ∧
    (addDocumentsBatch embedOne nrmId [docN 9] engineB).2 = .ok () ∧
    getDocumentCount (addDocumentsBatch embedOne nrmId [docN 9] engineB).1 = 9 :=
  ⟨rfl,
   (claim_C6_batch_count embedOne nrmId [docN 9] engineB rfl).1,
   (claim_C6_batch_count embedOne nrmId [docN 9] engineB rfl).2,
   rfl, rfl⟩

/-- C7: ingestion is atomic with respect to embedding failure: if the
encoder fails during `add_document` or a non-empty `add_documents_batch`
on an initialized engine, the call returns the embedding error and the
engine state is exactly the prior state (every embedding is computed
before any index is mutated). -/
theorem claim_C7_atomic_on_embed_failure (E : String → Option Vec)
    (nrm : Vec → Vec) (doc : Doc) (docs : List Doc) (st : Engine)
    (hready : st.ready = true) :
    ((E doc.questionText = none ∨ E doc.answerText = none) →
      addDocument E nrm doc st = (st, .error .embeddingFailed)) ∧
    (docs ≠ [] →
      (encodeAll E (docs.map (fun d => d.questionText)) = none ∨
       encodeAll E (docs.map (fun d => d.answerText)) = none) →
      addDocumentsBatch E nrm docs st = (st, .error .embeddingFailed)) := by
  constructor
  · intro hfail
    unfold addDocument
    rw [if_pos hready]
    cases hq : E doc.questionText with
    | none => rfl
    | some qe =>
      cases ha : E doc.answerText with
      | none => rfl
      | some ae =>
        rcases hfail with hf | hf
        · rw [hq] at hf; cases hf
        · rw [ha] at hf; cases hf
  · intro hd hfail
    unfold addDocumentsBatch
    rw [if_pos hready, if_neg hd]
    cases hq : encodeAll E (docs.map (fun d => d.questionText)) with
    | none => rfl
    | some qes =>
      cases ha : encodeAll E (docs.map (fun d => d.answerText)) with
      | none => rfl
      | some aes =>
        rcases hfail with hf | hf
        · rw [hq] at hf; cases hf
        · rw [ha] at hf; cases hf

/-- An embedder that always raises. -/
def embedFail : String → Option Vec := fun _ => none

/-- C7 witness: with a failing encoder, both ingestion calls on the
initialized engine `engineB` return the embedding error with the state
untouched. -/
theorem claim_C7_witness :
    engineB.ready = true ∧
    addDocument embedFail nrmId (docN 9) engineB = (engineB, .error .embeddingFailed) ∧
    addDocumentsBatch embedFail nrmId [docN 9] engineB =
      (engineB, .error .embeddingFailed) :=
  ⟨rfl,
   (claim_C7_atomic_on_embed_failure embedFail nrmId (docN 9) [docN 9] engineB rfl).1
     (Or.inl rfl),
   (claim_C7_atomic_on_embed_failure embedFail nrmId (docN 9) [docN 9] engineB rfl).2
     (by decide) (Or.inl rfl)⟩

/-- C10: on an initialized engine with a successful embedder,
`add_document(doc)` returns the 0-based ordinal of the appended document,
equal to the document count before the call, and the count afterwards is
one larger (so the returned value is `get_document_count() - 1` right
after the call). -/
theorem claim_C10_add_returns_ordinal (E : String → Option Vec)
    (nrm : Vec → Vec) (doc : Doc) (st : Engine) (qe ae : Vec)
    (hready : st.ready = true)
    (hq : E doc.questionText = some qe) (ha : E doc.answerText = some ae) :
    (addDocument E nrm doc st).2 = .ok st.documents.length ∧
    getDocumentCount (addDocument E nrm doc st).1 = st.documents.length + 1 := by
  unfold addDocument
  rw [if_pos hready, hq, ha]
  constructor
  · simp
  · simp [getDocumentCount, documents_applyBM25]

/-- C10 witness: adding one document to the 8-document engine returns
ordinal 8 and the count becomes 9. -/
theorem claim_C10_witness :
    (engineB.ready = true ∧ embedOne (docN 9).questionText = some [1] ∧
      embedOne (docN 9).answerText = some [1]) ∧
    (addDocument embedOne nrmId (docN 9) engineB).2 = .ok engineB.documents.length ∧
    getDocumentCount (addDocument embedOne nrmId (docN 9) engineB).1 =
      engineB.documents.length + 1 :=
  ⟨⟨rfl, rfl, rfl⟩,
   claim_C10_add_returns_ordinal embedOne nrmId (docN 9) engineB [1] [1] rfl rfl rfl⟩

/-- C8 as stated is false: `get_document_count`, `clear_index` and
`rebuild_index` perform no initialization check.  On the fresh,
uninitialized engine, `get_document_count()` returns 0 instead of raising,
and `rebuild_index([])` completes successfully. -/
theorem claim_C8_counterexample :
    engine0.ready = false ∧
    getDocumentCount engine0 = 0 ∧
    (rebuildIndex embedOne nrmId [] engine0).2 = .ok () :=
  ⟨rfl, rfl, rfl⟩

/-- C8 amended: `add_document`, `add_documents_batch`, `search`,
`search_questions_only` and `search_answers_only` fail fast with the
not-initialized error when invoked before `initialize()`; but
`get_document_count` returns the current document count,
`clear_index` resets the state, and `rebuild_index` runs (failing only
indirectly, inside `add_documents_batch`, when given a non-empty list) —
none of the latter three checks initialization. -/
theorem claim_C8_amended (E : String → Option Vec) (nrm : Vec → Vec)
    (doc : Doc) (docs : List Doc) (sem bm : Dict) (top_k : Nat)
    (threshold : ℚ) (st : Engine) (h : st.ready = false) :
    (addDocument E nrm doc st).2 = .error .notInitialized ∧
    (addDocumentsBatch E nrm docs st).2 = .error .notInitialized ∧
    (search sem bm top_k threshold st).2 = .error .notInitialized ∧
    (searchQuestionsOnly sem bm top_k threshold st).2 = .error .notInitialized ∧
    (searchAnswersOnly sem bm top_k threshold st).2 = .error .notInitialized ∧
    getDocumentCount st = st.documents.length ∧
    clearIndex st = { createEmptyIndexes st with
      bm25Questions := none, bm25Answers := none, bm25Combined := none
      tokenizedCorpus := [] } ∧
    (rebuildIndex E nrm [] st).2 = .ok () := by
  have hnr : ¬ st.ready = true := by rw [h]; exact Bool.false_ne_true
  refine ⟨?_, ?_, ?_, ?_, ?_, rfl, rfl, ?_⟩
  · unfold addDocument
    rw [if_neg hnr]
  · unfold addDocumentsBatch
    rw [if_neg hnr]
  · unfold search
    rw [if_neg hnr]
  · unfold searchQuestionsOnly
    rw [if_neg hnr]
  · unfold searchAnswersOnly
    rw [if_neg hnr]
  · unfold rebuildIndex
    rw [if_pos rfl]

/-- C8 witness: the amended statement instantiated on the fresh engine. -/
theorem claim_C8_witness :
    engine0.ready = false ∧
    (addDocument embedOne nrmId (docN 0) engine0).2 = .error .notInitialized ∧
    (addDocumentsBatch embedOne nrmId [docN 0] engine0).2 = .error .notInitialized ∧
    (search [] [] 5 (1/2) engine0).2 = .error .notInitialized ∧
    (searchQuestionsOnly [] [] 5 (1/2) engine0).2 = .error .notInitialized ∧
    (searchAnswersOnly [] [] 5 (1/2) engine0).2 = .error .notInitialized ∧
    getDocumentCount engine0 = engine0.documents.length ∧
    clearIndex engine0 = { createEmptyIndexes engine0 with
      bm25Questions := none, bm25Answers := none, bm25Combined := none
      tokenizedCorpus := [] } ∧
    (rebuildIndex embedOne nrmId [] engine0).2 = .ok () :=
  ⟨rfl, claim_C8_amended embedOne nrmId (docN 0) [docN 0] [] [] 5 (1/2) engine0 rfl⟩

/-- C9: `rebuild_index` is idempotent — running it twice with the same
document list leaves exactly the state of a single run (documents, vector
indexes and BM25 state alike), for every engine state, embedder outcome
and document list, including the stale-BM25 empty-list path and the
failure paths. -/
theorem claim_C9_rebuild_idempotent (E : String → Option Vec)
    (nrm : Vec → Vec) (docs : List Doc) (st : Engine) :
    (rebuildIndex E nrm docs (rebuildIndex E nrm docs st).1).1 =
      (rebuildIndex E nrm docs st).1 := by
  by_cases hd : docs = []
  · subst hd
    rfl
  · cases hr : st.ready with
    | false =>
      simp [rebuildIndex, addDocumentsBatch, createEmptyIndexes, hd, hr]
    | true =>
      cases hq : encodeAll E (docs.map (fun d => d.questionText)) with
      | none =>
        simp [rebuildIndex, addDocumentsBatch, createEmptyIndexes, hd, hr, hq]
      | some qes =>
        cases ha : encodeAll E (docs.map (fun d => d.answerText)) with
        | none =>
          simp [rebuildIndex, addDocumentsBatch, createEmptyIndexes, hd, hr, hq, ha]
        | some aes =>
          simp [rebuildIndex, addDocumentsBatch, createEmptyIndexes, applyBM25,
            buildBM25, hd, hr, hq, ha]

theorem consistentInv_applyBM25 (st1 : Engine)
    (h1 : st1.questionIndex.length = st1.documents.length)
    (h2 : st1.answerIndex.length = st1.documents.length)
    (h3 : st1.combinedIndex.length = st1.documents.length) :
    consistentInv (applyBM25 st1) := by
  refine ⟨h1, h2, h3, ?_⟩
  intro hd
  have hd' : st1.documents ≠ [] := hd
  unfold applyBM25 buildBM25
  simp [hd']

theorem consistentInv_ready (st : Engine) (b : Bool)
    (h : consistentInv st) : consistentInv { st with ready := b } := h

/-- C5 counterexample: `initialize` is a successful engine operation, yet
loading the count-mismatched snapshot `badSnap` leaves the question index
with 2 entries against 1 document — the invariant is violated right after
a successful operation. -/
theorem claim_C5_counterexample :
    (runOp embedOne nrmId (Op.engineInit (Store.multi badSnap)) engine0).2 = .ok () ∧
    ¬ consistentInv (runOp embedOne nrmId (Op.engineInit (Store.multi badSnap)) engine0).1 :=
  ⟨rfl, fun h => absurd h.1 (by decide)⟩

/-- C5 amended: after every successful engine operation the three vector
indexes hold exactly `len(documents)` entries and (when documents exist)
every BM25 corpus is the tokenization of the document list in ordinal
order — provided ingestion starts from a consistent state and `initialize`
does not load a count-mismatched multi-index snapshot (it performs no
validation, so such a snapshot violates the invariant, as the
counterexample shows). -/
theorem claim_C5_invariant (E : String → Option Vec) (nrm : Vec → Vec)
    (op : Op) (st : Engine) (hpre : preOp op st)
    (hok : (runOp E nrm op st).2 = .ok ()) :
    consistentInv (runOp E nrm op st).1 := by
  cases op with
  | add doc =>
    obtain ⟨p1, p2, p3, _⟩ := hpre
    simp only [runOp] at hok ⊢
    unfold addDocument at hok ⊢
    cases hr : st.ready with
    | false =>
      try rw [hr] at hok
      simp [Except.map] at hok
    | true =>
      try rw [hr] at hok
      simp only [eq_self_iff_true, if_true] at hok ⊢
      cases hq : E doc.questionText with
      | none =>
        try rw [hq] at hok
        simp [Except.map] at hok
      | some qe =>
        try rw [hq] at hok
        try rw [hq]
        cases ha : E doc.answerText with
        | none =>
          try rw [ha] at hok
          simp [Except.map] at hok
        | some ae =>
          try rw [ha]
          refine consistentInv_applyBM25 _ ?_ ?_ ?_ <;>
            simp [p1, p2, p3]
  | addBatch docs =>
    obtain ⟨p1, p2, p3, p4⟩ := hpre
    simp only [runOp] at hok ⊢
    unfold addDocumentsBatch at hok ⊢
    cases hr : st.ready with
    | false =>
      try rw [hr] at hok
      simp at hok
    | true =>
      try rw [hr] at hok
      simp only [eq_self_iff_true, if_true] at hok ⊢
      by_cases hd : docs = []
      · subst hd
        simp only [if_pos rfl]
        exact ⟨p1, p2, p3, p4⟩
      · rw [if_neg hd] at hok ⊢
        cases hq : encodeAll E (docs.map (fun d => d.questionText)) with
        | none =>
          try rw [hq] at hok
          simp at hok
        | some qes =>
          try rw [hq] at hok
          try rw [hq]
          cases ha : encodeAll E (docs.map (fun d => d.answerText)) with
          | none =>
            try rw [ha] at hok
            simp at hok
          | some aes =>
            try rw [ha]
            have hlq := encodeAll_length E _ _ hq
            have hla := encodeAll_length E _ _ ha
            simp only [List.length_map] at hlq hla
            refine consistentInv_applyBM25 _ ?_ ?_ ?_ <;>
              simp [hlq, hla, p1, p2, p3]
  | clear =>
    exact ⟨rfl, rfl, rfl, fun h => absurd rfl h⟩
  | rebuild docs =>
    simp only [runOp] at hok ⊢
    unfold rebuildIndex at hok ⊢
    by_cases hd : docs = []
    · subst hd
      exact ⟨rfl, rfl, rfl, fun h => absurd rfl h⟩
    · rw [if_neg hd] at hok ⊢
      unfold addDocumentsBatch at hok ⊢
      cases hr : st.ready with
      | false =>
        try rw [hr] at hok
        simp [createEmptyIndexes] at hok
      | true =>
        try rw [hr] at hok
        simp only [createEmptyIndexes, eq_self_iff_true, if_true] at hok ⊢
        rw [if_neg hd] at hok ⊢
        cases hq : encodeAll E (docs.map (fun d => d.questionText)) with
        | none =>
          try rw [hq] at hok
          simp at hok
        | some qes =>
          try rw [hq] at hok
          try rw [hq]
          cases ha : encodeAll E (docs.map (fun d => d.answerText)) with
          | none =>
            try rw [ha] at hok
            simp at hok
          | some aes =>
            try rw [ha]
            have hlq := encodeAll_length E _ _ hq
            have hla := encodeAll_length E _ _ ha
            simp only [List.length_map] at hlq hla
            refine consistentInv_applyBM25 _ ?_ ?_ ?_ <;>
              simp [hlq, hla]
  | engineInit store =>
    cases store with
    | multi snap =>
      cases hr : st.ready with
      | true =>
        simp only [runOp, initEngine, hr, eq_self_iff_true, if_true]
        exact hpre.1 hr
      | false =>
        simp only [runOp, initEngine, hr, Bool.false_eq_true, if_false]
        obtain ⟨q1, q2, q3⟩ := hpre.2
        exact consistentInv_ready _ _ (consistentInv_applyBM25 _ q1 q2 q3)
    | fresh =>
      cases hr : st.ready with
      | true =>
        simp only [runOp, initEngine, hr, eq_self_iff_true, if_true]
        exact hpre.1 hr
      | false =>
        simp only [runOp, initEngine, hr, Bool.false_eq_true, if_false]
        exact consistentInv_ready _ _ (consistentInv_applyBM25 _ rfl rfl rfl)
    | legacy docs =>
      cases hr : st.ready with
      | true =>
        simp only [runOp, initEngine, hr, eq_self_iff_true, if_true]
        exact hpre.1 hr
      | false =>
        simp only [runOp, initEngine, hr, Bool.false_eq_true, if_false] at hok ⊢
        by_cases hd : docs = []
        · subst hd
          exact consistentInv_ready _ _ (consistentInv_applyBM25 _ rfl rfl rfl)
        · simp only [buildMultiIndex] at hok ⊢
          simp only [hd] at hok ⊢
          cases hq : encodeAll E (docs.map (fun d => d.questionText)) with
          | none =>
            try rw [hq] at hok
            try simp only [hq] at hok
            simp at hok
          | some qes =>
            try rw [hq] at hok
            try simp only [hq] at hok ⊢
            cases ha : encodeAll E (docs.map (fun d => d.answerText)) with
            | none =>
              try rw [ha] at hok
              try simp only [ha] at hok
              simp at hok
            | some aes =>
              try rw [ha]
              try simp only [ha]
              have hlq := encodeAll_length E _ _ hq
              have hla := encodeAll_length E _ _ ha
              simp only [List.length_map] at hlq hla
              refine consistentInv_ready _ _ (consistentInv_applyBM25 _ ?_ ?_ ?_) <;>
                simp [hlq, hla]

/-- C5 witness: `clear_index` on the fresh engine trivially satisfies its
(empty) precondition, succeeds, and re-establishes the invariant. -/
theorem claim_C5_witness :
    preOp Op.clear engine0 ∧
    (runOp embedOne nrmId Op.clear engine0).2 = .ok () ∧
    consistentInv (runOp embedOne nrmId Op.clear engine0).1 :=
  ⟨trivial, rfl, claim_C5_invariant embedOne nrmId Op.clear engine0 trivial rfl⟩
